import Mathlib

/-!
Shallow embedding of the `try_map` crate (src/lib.rs).

Rust `Option<T>` is embedded as Lean `Option T`, Rust `Result<T, E>` as
`Except E T` (with `Ok` ↦ `Except.ok` and `Err` ↦ `Except.error`), and
Rust `Vec<T>` as `List T`.

The crate provides:
- `FallibleMapExt::try_map` on `Option<T>`;
- `FlipResultExt::flip` on `Option<Result<T, E>>`, `Vec<Result<T, E>>`
  and `Vec<Option<T>>`.

For claims about invocation counts and loop-iteration counts, instrumented
variants of the same code thread an explicit counter; theorems tie their
value components back to the pure embeddings.
-/

namespace TryMapCrate

/-- Embeds `FallibleMapExt::try_map` for `Option<T>`:
`match self { Some(x) => f(x).map(Some), None => Ok(None) }`. -/
def try_map {T U E : Type} (o : Option T) (f : T → Except E U) : Except E (Option U) :=
  match o with
  | some x => (f x).map some
  | none => Except.ok none

/-- Embeds `FlipResultExt::flip` for `Option<Result<T, E>>`:
`match self { Some(r) => r.map(Some), None => Ok(None) }`. -/
def flipOptionResult {T E : Type} (o : Option (Except E T)) : Except E (Option T) :=
  match o with
  | some r => r.map some
  | none => Except.ok none

/-- Embeds the loop body of `FlipResultExt::flip` for `Vec<Result<T, E>>`:
iterate over the remaining elements, pushing each `Ok` payload onto the
accumulator `result_vec` and returning the error on the first `Err`. -/
def flipVecResultGo {T E : Type} (acc : List T) : List (Except E T) → Except E (List T)
  | [] => Except.ok acc
  | t :: rest =>
    match t with
    | Except.ok u => flipVecResultGo (acc ++ [u]) rest
    | Except.error e => Except.error e

/-- Embeds `FlipResultExt::flip` for `Vec<Result<T, E>>`: run the loop
starting from the empty `result_vec`. -/
def flipVecResult {T E : Type} (l : List (Except E T)) : Except E (List T) :=
  flipVecResultGo [] l

/-- Embeds the loop body of `FlipResultExt::flip` for `Vec<Option<T>>`:
push each `Some` payload onto the accumulator, return `None` on the first
`None` element. -/
def flipVecOptionGo {T : Type} (acc : List T) : List (Option T) → Option (List T)
  | [] => some acc
  | t :: rest =>
    match t with
    | some u => flipVecOptionGo (acc ++ [u]) rest
    | none => none

/-- Embeds `FlipResultExt::flip` for `Vec<Option<T>>`: run the loop
starting from the empty `result_vec`. -/
def flipVecOption {T : Type} (l : List (Option T)) : Option (List T) :=
  flipVecOptionGo [] l

/-- Instrumented embedding of `try_map`: the mapping function is modelled as
also transforming a counter state, so that the number of invocations of `f`
performed by the combinator is observable. The control flow is exactly that
of `try_map`. -/
def try_map_instr {T U E : Type} (o : Option T) (f : T → Nat → Except E U × Nat)
    (n : Nat) : Except E (Option U) × Nat :=
  match o with
  | some x =>
    let p := f x n
    (p.1.map some, p.2)
  | none => (Except.ok none, n)

/-- Wraps a pure mapping function as a counted one: each invocation bumps
the counter by one and otherwise behaves as `f`. -/
def countCalls {T U E : Type} (f : T → Except E U) : T → Nat → Except E U × Nat :=
  fun x n => (f x, n + 1)

/-- Instrumented embedding of the `Vec<Result<T, E>>` flip loop: identical
control flow to `flipVecResultGo`, additionally counting one step per loop
iteration. -/
def flipVecResultInstr {T E : Type} (acc : List T) (steps : Nat) :
    List (Except E T) → Except E (List T) × Nat
  | [] => (Except.ok acc, steps)
  | t :: rest =>
    match t with
    | Except.ok u => flipVecResultInstr (acc ++ [u]) (steps + 1) rest
    | Except.error e => (Except.error e, steps + 1)

/-- Instrumented embedding of the `Vec<Option<T>>` flip loop: identical
control flow to `flipVecOptionGo`, additionally counting one step per loop
iteration. -/
def flipVecOptionInstr {T : Type} (acc : List T) (steps : Nat) :
    List (Option T) → Option (List T) × Nat
  | [] => (some acc, steps)
  | t :: rest =>
    match t with
    | some u => flipVecOptionInstr (acc ++ [u]) (steps + 1) rest
    | none => (none, steps + 1)

/-- Chaining `n` `try_map` calls with short-circuit unwrapping of the `Ok`
between steps, as in the crate's `test_try_map_*` tests, where each `?`
either unwraps the `Ok(option)` and continues, or returns the error. -/
def chainTryMap {T E : Type} (o : Option T) : List (T → Except E T) → Except E (Option T)
  | [] => Except.ok o
  | f :: fs =>
    match try_map o f with
    | Except.ok o2 => chainTryMap o2 fs
    | Except.error e => Except.error e

/-- Chaining `n` map-then-flip calls with short-circuit unwrapping of the
`Ok` between steps, as in the crate's `test_flip_*` tests: each step is
`.map(f).flip()?`. -/
def chainMapFlip {T E : Type} (o : Option T) : List (T → Except E T) → Except E (Option T)
  | [] => Except.ok o
  | f :: fs =>
    match flipOptionResult (o.map f) with
    | Except.ok o2 => chainMapFlip o2 fs
    | Except.error e => Except.error e

example : try_map (some 42) (fun x => (Except.ok (x + 1) : Except String Nat)) =
    Except.ok (some 43) := rfl
example : flipVecResult [Except.error "heatenings", Except.ok 2, Except.error "other"] =
    (Except.error "heatenings" : Except String (List Nat)) := rfl
example : flipVecResult ([Except.ok 43, Except.ok 101] : List (Except String Nat)) =
    Except.ok [43, 101] := rfl
example : flipVecOption [some 1, some 2] = some [1, 2] := rfl
example : flipVecOption [some 1, none, some 2] = (none : Option (List Nat)) := rfl

/-! Helper lemmas about the embeddings. -/

theorem flipVecResultGo_append {T E : Type} :
    ∀ (l : List (Except E T)) (acc : List T),
      flipVecResultGo acc l = (flipVecResult l).map (fun v => acc ++ v) := by
  intro l
  induction l with
  | nil => intro acc; simp [flipVecResult, flipVecResultGo, Except.map]
  | cons t rest ih =>
    intro acc
    cases t with
    | error e => rfl
    | ok u =>
      show flipVecResultGo (acc ++ [u]) rest
        = (flipVecResultGo ([] ++ [u]) rest).map (fun v => acc ++ v)
      rw [ih (acc ++ [u]), ih ([] ++ [u])]
      cases flipVecResult rest <;> simp [Except.map]

theorem flipVecResult_cons_ok {T E : Type} (u : T) (rest : List (Except E T)) :
    flipVecResult (Except.ok u :: rest) = (flipVecResult rest).map (fun v => u :: v) := by
  show flipVecResultGo ([] ++ [u]) rest = _
  rw [flipVecResultGo_append]
  cases flipVecResult rest <;> simp [Except.map]

theorem flipVecResult_map_ok {T E : Type} (xs : List T) :
    flipVecResult (xs.map (fun x => (Except.ok x : Except E T))) = Except.ok xs := by
  induction xs with
  | nil => rfl
  | cons x xs ih => rw [List.map_cons, flipVecResult_cons_ok, ih]; rfl

theorem flipVecResult_error_at {T E : Type} (xs : List T) (e : E) (rest : List (Except E T)) :
    flipVecResult (xs.map (fun x => (Except.ok x : Except E T)) ++ Except.error e :: rest)
      = Except.error e := by
  induction xs with
  | nil => rfl
  | cons x xs ih => rw [List.map_cons, List.cons_append, flipVecResult_cons_ok, ih]; rfl

theorem flipVecOptionGo_append {T : Type} :
    ∀ (l : List (Option T)) (acc : List T),
      flipVecOptionGo acc l = (flipVecOption l).map (fun v => acc ++ v) := by
  intro l
  induction l with
  | nil => intro acc; simp [flipVecOption, flipVecOptionGo]
  | cons t rest ih =>
    intro acc
    cases t with
    | none => rfl
    | some u =>
      show flipVecOptionGo (acc ++ [u]) rest
        = (flipVecOptionGo ([] ++ [u]) rest).map (fun v => acc ++ v)
      rw [ih (acc ++ [u]), ih ([] ++ [u])]
      cases flipVecOption rest <;> simp

theorem flipVecOption_cons_some {T : Type} (u : T) (rest : List (Option T)) :
    flipVecOption (some u :: rest) = (flipVecOption rest).map (fun v => u :: v) := by
  show flipVecOptionGo ([] ++ [u]) rest = _
  rw [flipVecOptionGo_append]
  cases flipVecOption rest <;> simp

theorem flipVecOption_map_some {T : Type} (xs : List T) :
    flipVecOption (xs.map some) = some xs := by
  induction xs with
  | nil => rfl
  | cons x xs ih => rw [List.map_cons, flipVecOption_cons_some, ih]; rfl

theorem flipVecOption_none_at {T : Type} (xs : List T) (rest : List (Option T)) :
    flipVecOption (xs.map some ++ none :: rest) = none := by
  induction xs with
  | nil => rfl
  | cons x xs ih => rw [List.map_cons, List.cons_append, flipVecOption_cons_some, ih]; rfl

theorem try_map_error_src {T U E : Type} (o : Option T) (f : T → Except E U) (e : E)
    (h : try_map o f = Except.error e) : ∃ x, o = some x ∧ f x = Except.error e := by
  cases o with
  | none => simp [try_map] at h
  | some x =>
    refine ⟨x, rfl, ?_⟩
    cases hf : f x with
    | ok y => simp [try_map, hf, Except.map] at h
    | error e2 => simpa [try_map, hf, Except.map] using h

theorem flipOptionResult_error_src {T E : Type} (o : Option (Except E T)) (e : E)
    (h : flipOptionResult o = Except.error e) : o = some (Except.error e) := by
  cases o with
  | none => simp [flipOptionResult] at h
  | some r =>
    cases r with
    | ok x => simp [flipOptionResult, Except.map] at h
    | error e2 => simpa [flipOptionResult, Except.map] using h

theorem flipVecResult_error_src {T E : Type} :
    ∀ (l : List (Except E T)) (e : E), flipVecResult l = Except.error e →
      ∃ k, l.get? k = some (Except.error e) ∧
        ∀ j, j < k → ∃ x, l.get? j = some (Except.ok x) := by
  intro l
  induction l with
  | nil => intro e h; simp [flipVecResult, flipVecResultGo] at h
  | cons t rest ih =>
    intro e h
    cases t with
    | error e2 =>
      have he : e2 = e := by simpa [flipVecResult, flipVecResultGo] using h
      subst he
      exact ⟨0, rfl, fun j hj => absurd hj (Nat.not_lt_zero j)⟩
    | ok u =>
      rw [flipVecResult_cons_ok] at h
      cases hr : flipVecResult rest with
      | ok v => rw [hr] at h; simp [Except.map] at h
      | error e2 =>
        rw [hr] at h
        have he : e2 = e := by simpa [Except.map] using h
        obtain ⟨k, hk, hlt⟩ := ih e2 hr
        rw [he] at hk
        refine ⟨k + 1, by simpa using hk, ?_⟩
        intro j hj
        cases j with
        | zero => exact ⟨u, rfl⟩
        | succ j2 => exact hlt j2 (Nat.lt_of_succ_lt_succ hj)

theorem flipVecOption_none_src {T : Type} :
    ∀ l : List (Option T), flipVecOption l = none → none ∈ l := by
  intro l
  induction l with
  | nil => intro h; simp [flipVecOption, flipVecOptionGo] at h
  | cons t rest ih =>
    intro h
    cases t with
    | none => exact List.mem_cons_self _ _
    | some u =>
      rw [flipVecOption_cons_some] at h
      cases hr : flipVecOption rest with
      | some v => rw [hr] at h; simp at h
      | none => exact List.mem_cons_of_mem _ (ih hr)

theorem flipVecResultInstr_fst {T E : Type} :
    ∀ (l : List (Except E T)) (acc : List T) (n : Nat),
      (flipVecResultInstr acc n l).1 = flipVecResultGo acc l := by
  intro l
  induction l with
  | nil => intro acc n; rfl
  | cons t rest ih =>
    intro acc n
    cases t with
    | ok u => exact ih (acc ++ [u]) (n + 1)
    | error e => rfl

theorem flipVecResultInstr_steps_le {T E : Type} :
    ∀ (l : List (Except E T)) (acc : List T) (n : Nat),
      (flipVecResultInstr acc n l).2 ≤ n + l.length := by
  intro l
  induction l with
  | nil => intro acc n; simp [flipVecResultInstr]
  | cons t rest ih =>
    intro acc n
    cases t with
    | ok u =>
      have := ih (acc ++ [u]) (n + 1)
      simpa [flipVecResultInstr, Nat.add_comm, Nat.add_left_comm] using this
    | error e => simp [flipVecResultInstr]

theorem flipVecResultInstr_steps_ok {T E : Type} (xs : List T) :
    ∀ (acc : List T) (n : Nat),
      (flipVecResultInstr acc n (xs.map (fun x => (Except.ok x : Except E T)))).2
        = n + xs.length := by
  induction xs with
  | nil => intro acc n; simp [flipVecResultInstr]
  | cons x xs ih =>
    intro acc n
    have := ih (acc ++ [x]) (n + 1)
    simpa [flipVecResultInstr, Nat.add_comm, Nat.add_left_comm] using this

theorem flipVecOptionInstr_fst {T : Type} :
    ∀ (l : List (Option T)) (acc : List T) (n : Nat),
      (flipVecOptionInstr acc n l).1 = flipVecOptionGo acc l := by
  intro l
  induction l with
  | nil => intro acc n; rfl
  | cons t rest ih =>
    intro acc n
    cases t with
    | some u => exact ih (acc ++ [u]) (n + 1)
    | none => rfl

theorem flipVecOptionInstr_steps_le {T : Type} :
    ∀ (l : List (Option T)) (acc : List T) (n : Nat),
      (flipVecOptionInstr acc n l).2 ≤ n + l.length := by
  intro l
  induction l with
  | nil => intro acc n; simp [flipVecOptionInstr]
  | cons t rest ih =>
    intro acc n
    cases t with
    | some u =>
      have := ih (acc ++ [u]) (n + 1)
      simpa [flipVecOptionInstr, Nat.add_comm, Nat.add_left_comm] using this
    | none => simp [flipVecOptionInstr]

theorem flipVecOptionInstr_steps_some {T : Type} (xs : List T) :
    ∀ (acc : List T) (n : Nat),
      (flipVecOptionInstr acc n (xs.map some)).2 = n + xs.length := by
  induction xs with
  | nil => intro acc n; simp [flipVecOptionInstr]
  | cons x xs ih =>
    intro acc n
    have := ih (acc ++ [x]) (n + 1)
    simpa [flipVecOptionInstr, Nat.add_comm, Nat.add_left_comm] using this

theorem try_map_pure {T U E : Type} (o : Option T) (g : T → U) :
    try_map o (fun x => (Except.ok (g x) : Except E U)) = Except.ok (o.map g) := by
  cases o <;> rfl

theorem map_flip_pure {T U E : Type} (o : Option T) (g : T → U) :
    flipOptionResult (o.map (fun x => (Except.ok (g x) : Except E U)))
      = Except.ok (o.map g) := by
  cases o <;> rfl

theorem chainTryMap_pure {T E : Type} :
    ∀ (gs : List (T → T)) (o : Option T),
      chainTryMap o (gs.map fun g => fun x => (Except.ok (g x) : Except E T))
        = Except.ok (o.map fun x => gs.foldl (fun a g => g a) x) := by
  intro gs
  induction gs with
  | nil => intro o; simp [chainTryMap]
  | cons g gs ih =>
    intro o
    cases o with
    | none =>
      have h2 := ih (none : Option T)
      simp [chainTryMap, try_map] at h2 ⊢
      exact h2
    | some a =>
      have h2 := ih (some (g a))
      simp [chainTryMap, try_map, Except.map] at h2 ⊢
      exact h2

theorem chainMapFlip_pure {T E : Type} :
    ∀ (gs : List (T → T)) (o : Option T),
      chainMapFlip o (gs.map fun g => fun x => (Except.ok (g x) : Except E T))
        = Except.ok (o.map fun x => gs.foldl (fun a g => g a) x) := by
  intro gs
  induction gs with
  | nil => intro o; simp [chainMapFlip]
  | cons g gs ih =>
    intro o
    cases o with
    | none =>
      have h2 := ih (none : Option T)
      simp [chainMapFlip, flipOptionResult] at h2 ⊢
      exact h2
    | some a =>
      have h2 := ih (some (g a))
      simp [chainMapFlip, flipOptionResult, Except.map] at h2 ⊢
      exact h2

/-! Claim theorems. -/

/-- Claim C1: for every value `x` and every function `f`, `try_map (some x) f`
evaluates `f x` exactly once (the instrumented run bumps the call counter from
`n` to `n + 1` and returns the same value as the pure run), and returns
`Ok (Some y)` when `f x = Ok y`, and `Err e` unchanged when `f x = Err e`. -/
theorem try_map_some_spec {T U E : Type} (x : T) (f : T → Except E U) :
    (∀ y, f x = Except.ok y → try_map (some x) f = Except.ok (some y)) ∧
    (∀ e, f x = Except.error e → try_map (some x) f = Except.error e) ∧
    (∀ n, (try_map_instr (some x) (countCalls f) n).2 = n + 1) ∧
    (∀ n, (try_map_instr (some x) (countCalls f) n).1 = try_map (some x) f) := by
  refine ⟨fun y hy => ?_, fun e he => ?_, fun n => rfl, fun n => rfl⟩
  · simp [try_map, hy, Except.map]
  · simp [try_map, he, Except.map]

/-- Witness for C1 at `x = 42`, `f = fun z => Ok (z + 1)`. -/
theorem try_map_some_spec_witness :
    try_map (some 42) (fun z => (Except.ok (z + 1) : Except String Nat))
      = Except.ok (some 43) :=
  (try_map_some_spec 42 (fun z => (Except.ok (z + 1) : Except String Nat))).1 43 rfl

/-- Claim C2: for every function `f`, `try_map none f` returns `Ok None`;
`f` is never invoked (the instrumented counter is unchanged) and the result
does not depend on `f` in any way. -/
theorem try_map_none_spec {T U E : Type} (f : T → Except E U) :
    try_map (none : Option T) f = Except.ok none ∧
    (∀ g : T → Except E U, try_map (none : Option T) f = try_map (none : Option T) g) ∧
    (∀ n, (try_map_instr (none : Option T) (countCalls f) n).2 = n) :=
  ⟨rfl, fun _g => rfl, fun _n => rfl⟩

/-- Claim C3: on a vector whose elements before position `k` are all `Ok` and
whose element at position `k` is the first `Err e`, `flip` returns `Err e`,
and the result is the same whatever the elements after position `k` are
(they are neither inspected nor included in any output). -/
theorem flipVecResult_first_error_spec {T E : Type} (xs : List T) (e : E)
    (rest rest2 : List (Except E T)) :
    flipVecResult (xs.map (fun x => (Except.ok x : Except E T)) ++ Except.error e :: rest)
      = Except.error e ∧
    flipVecResult (xs.map (fun x => (Except.ok x : Except E T)) ++ Except.error e :: rest)
      = flipVecResult
          (xs.map (fun x => (Except.ok x : Except E T)) ++ Except.error e :: rest2) :=
  ⟨flipVecResult_error_at xs e rest,
    (flipVecResult_error_at xs e rest).trans (flipVecResult_error_at xs e rest2).symm⟩

/-- Claim C4: on a vector in which every element is `Ok x_i`, `flip` returns
`Ok` of exactly the unwrapped values in the original order and with the
original length; in particular `flip` of the empty vector is `Ok []`. -/
theorem flipVecResult_all_ok_spec {T E : Type} (xs : List T) :
    flipVecResult (xs.map (fun x => (Except.ok x : Except E T))) = Except.ok xs ∧
    (xs.map (fun x => (Except.ok x : Except E T))).length = xs.length ∧
    flipVecResult ([] : List (Except E T)) = Except.ok [] :=
  ⟨flipVecResult_map_ok xs, List.length_map xs _, rfl⟩

/-- Claim C5: on a `Vec<Option<T>>`, the first `None` (lowest index) makes
`flip` return `None` regardless of the later elements; if no element is
`None`, `flip` returns `Some` of the unwrapped values in original order; and
`flip` of the empty vector is `Some []`. -/
theorem flipVecOption_spec {T : Type} (xs pre : List T) (rest rest2 : List (Option T)) :
    flipVecOption (pre.map some ++ none :: rest) = none ∧
    flipVecOption (pre.map some ++ none :: rest)
      = flipVecOption (pre.map some ++ none :: rest2) ∧
    flipVecOption (xs.map some) = some xs ∧
    flipVecOption ([] : List (Option T)) = some [] :=
  ⟨flipVecOption_none_at pre rest,
    (flipVecOption_none_at pre rest).trans (flipVecOption_none_at pre rest2).symm,
    flipVecOption_map_some xs, rfl⟩

/-- Claim C6: `flip` on `Option<Result<T, E>>` maps `None` to `Ok None`,
`Some (Ok x)` to `Ok (Some x)` and `Some (Err e)` to `Err e`. -/
theorem flipOptionResult_spec {T E : Type} (x : T) (e : E) :
    flipOptionResult (none : Option (Except E T)) = Except.ok none ∧
    flipOptionResult (some (Except.ok x : Except E T)) = Except.ok (some x) ∧
    flipOptionResult (some (Except.error e : Except E T)) = Except.error e :=
  ⟨rfl, rfl, rfl⟩

/-- Claim C7: whenever any operation of the library returns an error, that
error is exactly the first error occurring in the input (or produced by the
supplied function): `try_map` errors only with the value `f` produced on the
present element, `flip` on an option errors only with the error the input
held, `flip` on a vector errors only with the error at the lowest `Err`
index (all earlier elements being `Ok`); and an absent input is never turned
into an error (`try_map none` and `flip none` return `Ok None`, and the
vector-of-options `flip` returns `None` only when some input element is
`None`). -/
theorem error_passthrough_spec {T U E : Type} :
    (∀ (o : Option T) (f : T → Except E U) (e : E),
      try_map o f = Except.error e → ∃ x, o = some x ∧ f x = Except.error e) ∧
    (∀ f : T → Except E U, try_map (none : Option T) f = Except.ok none) ∧
    (∀ (o : Option (Except E T)) (e : E),
      flipOptionResult o = Except.error e → o = some (Except.error e)) ∧
    flipOptionResult (none : Option (Except E T)) = Except.ok none ∧
    (∀ (l : List (Except E T)) (e : E), flipVecResult l = Except.error e →
      ∃ k, l.get? k = some (Except.error e) ∧
        ∀ j, j < k → ∃ x, l.get? j = some (Except.ok x)) ∧
    (∀ l : List (Option T), flipVecOption l = none → none ∈ l) :=
  ⟨try_map_error_src, fun _f => rfl, flipOptionResult_error_src, rfl,
    flipVecResult_error_src, flipVecOption_none_src⟩

/-- Witness for C7: the `try_map` conjunct at `o = some 0` and a constantly
failing function, and the vector conjunct at the one-element vector
`[Err "e"]`, with the hypotheses discharged by `rfl`. -/
theorem error_passthrough_spec_witness :
    (∃ x, (some 0 : Option Nat) = some x ∧
      (fun _ : Nat => (Except.error "e" : Except String Nat)) x = Except.error "e") ∧
    (∃ k, ([Except.error "e"] : List (Except String Nat)).get? k
        = some (Except.error "e") ∧
      ∀ j, j < k → ∃ x,
        ([Except.error "e"] : List (Except String Nat)).get? j = some (Except.ok x)) :=
  ⟨(@error_passthrough_spec Nat Nat String).1 (some 0)
      (fun _ => Except.error "e") "e" rfl,
    (@error_passthrough_spec Nat Nat String).2.2.2.2.1 [Except.error "e"] "e" rfl⟩

/-- Claim C8: chaining any number of `try_map` calls (or map-then-flip
calls) whose functions never fail, with short-circuit unwrapping of the `Ok`
between steps, equals mapping the left-to-right composition of the
underlying pure functions over the option and wrapping the result once in
`Ok`. -/
theorem chain_pure_spec {T E : Type} (o : Option T) (gs : List (T → T)) :
    chainTryMap o (gs.map fun g => fun x => (Except.ok (g x) : Except E T))
      = Except.ok (o.map fun x => gs.foldl (fun a g => g a) x) ∧
    chainMapFlip o (gs.map fun g => fun x => (Except.ok (g x) : Except E T))
      = Except.ok (o.map fun x => gs.foldl (fun a g => g a) x) :=
  ⟨chainTryMap_pure gs o, chainMapFlip_pure gs o⟩

/-- Claim C9: for every option `o` and function `f`, `try_map o f` equals
`flip (o.map f)`: the two combinators are interchangeable on the optional
instantiation. -/
theorem try_map_eq_map_flip {T U E : Type} (o : Option T) (f : T → Except E U) :
    try_map o f = flipOptionResult (o.map f) := by
  cases o <;> rfl

/-- Claim C10: the vector instantiations of `flip` are single-pass and
linear: the instrumented loops compute the same value as the pure
embeddings, perform at most one iteration per input element, and on an
all-success input perform exactly one iteration per element (one pass, no
check-then-build second phase). -/
theorem flip_linear_single_pass {T E : Type} (l : List (Except E T))
    (lo : List (Option T)) (xs : List T) :
    (flipVecResultInstr [] 0 l).1 = flipVecResult l ∧
    (flipVecResultInstr [] 0 l).2 ≤ l.length ∧
    (flipVecResultInstr [] 0 (xs.map (fun x => (Except.ok x : Except E T)))).2
      = xs.length ∧
    (flipVecOptionInstr [] 0 lo).1 = flipVecOption lo ∧
    (flipVecOptionInstr [] 0 lo).2 ≤ lo.length ∧
    (flipVecOptionInstr [] 0 (xs.map some)).2 = xs.length := by
  refine ⟨flipVecResultInstr_fst l [] 0, ?_, ?_, flipVecOptionInstr_fst lo [] 0, ?_, ?_⟩
  · simpa using flipVecResultInstr_steps_le l [] 0
  · simpa using flipVecResultInstr_steps_ok xs [] 0
  · simpa using flipVecOptionInstr_steps_le lo [] 0
  · simpa using flipVecOptionInstr_steps_some xs [] 0

end TryMapCrate
